import Mathlib

/-!
Verification of the ray-query core of `include/igl/embree/EmbreeIntersector.h`:
the single-hit and multi-hit `intersectRay` member functions.  The external
embree collaborator (acceleration structure plus nearest-hit primitive) is
modelled, for one fixed query ray, by the finite list of front-facing
candidate hits along that ray; the source's floating-point arithmetic is
embedded as exact rational arithmetic.
-/

namespace EmbreeIntersector

/-- Record of one intersection as the intersector consumes `embree::Hit`:
`id0` is the struck triangle id and `t` the parametric distance along the
query ray (the hit point is `origin + t * direction`). -/
structure Hit where
  id0 : Int
  t : ℚ
  deriving DecidableEq

/-- Modelled from the spec: `igl/EPS.h` (included at line 77) is not among
the sources; the spec (§4.2 item 3) fixes the epsilon base `FLOAT_EPS` used
by the multi-hit loop (`const double eps = FLOAT_EPS`, line 176) at a
magnitude near single-precision float epsilon, i.e. `1e-7`. -/
def FLOAT_EPS : ℚ := 1 / 10 ^ 7

/-- Helper for the nearest-hit model: the entry of minimal `t` in a list,
the earliest such entry winning ties. -/
def minByT : List Hit → Option Hit
  | [] => none
  | h :: rest =>
    match minByT rest with
    | none => some h
    | some b => if h.t ≤ b.t then some h else some b

/-- Modelled from the spec: the nearest-hit primitive
`_intersector->intersect(ray, hit)` (§4.1 and §6 of the spec; the embree
library is not among the sources) returns, for the query ray restricted to
parametric lower bound `tmin`, the front-facing candidate of minimal `t`
among those with `tmin ≤ t`, or no hit when no candidate remains. -/
def nearestHit (cands : List Hit) (tmin : ℚ) : Option Hit :=
  minByT (cands.filter (fun h => decide (tmin ≤ h.t)))

/-- Loop state of the multi-hit `intersectRay` (lines 167–178 of the
source): accumulated `hits`, the ray counter `num_rays`, the last struck
triangle id `last_id0`, the consecutive-self-hit counter `self_hits`, the
current parametric lower bound `min_t`, and the `large_hits_warned` flag. -/
structure LoopState where
  hits : List Hit
  num_rays : Nat
  last_id0 : Int
  self_hits : Nat
  min_t : ℚ
  large_hits_warned : Bool
  deriving DecidableEq

/-- Initial loop state (lines 167–178): `hits` cleared, `num_rays = 0`,
`last_id0 = -1`, `self_hits = 0`, `min_t = embree::zero`, and the warning
flag unset. -/
def initState : LoopState :=
  { hits := [], num_rays := 0, last_id0 := -1, self_hits := 0, min_t := 0,
    large_hits_warned := false }

/-- Body of one loop iteration whose nearest-hit query found `hit`
(lines 187–221): `num_rays` is incremented; a self-hit
(`hit.id0 == last_id0 || hit.t <= min_t`, line 194) is discarded and
`min_t` advanced by `pow(2.0, self_hits) * eps` (lines 200–206); otherwise
the hit is recorded, `min_t` jumps to `hit.t` and `self_hits` resets
(lines 209–218); `last_id0` becomes `hit.id0` in both branches (line 220). -/
def iterBody (s : LoopState) (hit : Hit) : LoopState :=
  if hit.id0 = s.last_id0 ∨ hit.t ≤ s.min_t then
    { s with num_rays := s.num_rays + 1,
             min_t := s.min_t + 2 ^ s.self_hits * FLOAT_EPS,
             self_hits := s.self_hits + 1,
             last_id0 := hit.id0 }
  else
    { s with num_rays := s.num_rays + 1,
             hits := s.hits ++ [hit],
             min_t := hit.t,
             self_hits := 0,
             last_id0 := hit.id0 }

/-- Result of one multi-hit call: the boolean return value
(`return hits.empty()`, lines 247 and 250), the hit list, the ray counter,
and whether the large-hit-count diagnostic of lines 228–245 was printed. -/
structure MultiHitResult where
  ret : Bool
  hits : List Hit
  num_rays : Nat
  warned : Bool
  deriving DecidableEq

/-- Outcome of one pass through the `while(true)` body: either the call
finishes with a `MultiHitResult`, or the loop continues in a new state. -/
inductive StepResult where
  | done : MultiHitResult → StepResult
  | next : LoopState → StepResult
  deriving DecidableEq

/-- One pass through the `while(true)` body (lines 179–249): shoot a ray
from `min_t`; with no hit the loop breaks (lines 222–225) and the call
returns `hits.empty()` (line 250); with a hit the state advances by
`iterBody`, and if afterwards `hits.size() > 1000` and the warning was not
yet issued, the diagnostic is printed and the call returns early
(lines 226–248). -/
def step (cands : List Hit) (s : LoopState) : StepResult :=
  match nearestHit cands s.min_t with
  | none => .done ⟨s.hits.isEmpty, s.hits, s.num_rays + 1, s.large_hits_warned⟩
  | some hit =>
    let s' := iterBody s hit
    if 1000 < s'.hits.length ∧ s'.large_hits_warned = false then
      .done ⟨s'.hits.isEmpty, s'.hits, s'.num_rays, true⟩
    else
      .next s'

/-- Iterated stepping of the multi-hit loop, with explicit iteration budget
`fuel`; `none` means the budget was exhausted before the loop finished. -/
def loop (cands : List Hit) (fuel : Nat) (s : LoopState) : Option MultiHitResult :=
  match fuel with
  | 0 => none
  | f + 1 =>
    match step cands s with
    | .done r => some r
    | .next s' => loop cands f s'

/-- Single-hit `intersectRay` (lines 141–152): one nearest-hit query with
the fixed parametric lower bound `1e-4f` passed to `embree::Ray`
(line 149). -/
def intersectRay (cands : List Hit) : Option Hit :=
  nearestHit cands (1 / 10 ^ 4)

/-- Multi-hit `intersectRay` (lines 154–251), run for at most `fuel`
iterations of its `while(true)` loop from the initial state. -/
def intersectRayAll (cands : List Hit) (fuel : Nat) : Option MultiHitResult :=
  loop cands fuel initState

/-! Basic facts about the nearest-hit model. -/

theorem minByT_mem {l : List Hit} {h : Hit} (hm : minByT l = some h) : h ∈ l := by
  induction l with
  | nil => simp [minByT] at hm
  | cons a rest ih =>
    cases hrec : minByT rest with
    | none =>
      simp only [minByT, hrec, Option.some.injEq] at hm
      simp [← hm]
    | some b =>
      simp only [minByT, hrec] at hm
      split at hm <;> simp only [Option.some.injEq] at hm
      · simp [← hm]
      · exact List.mem_cons_of_mem _ (ih (hm ▸ hrec))

theorem minByT_eq_none {l : List Hit} : minByT l = none ↔ l = [] := by
  cases l with
  | nil => simp [minByT]
  | cons a rest =>
    rw [minByT]
    cases minByT rest <;> simp only [List.cons_ne_nil, iff_false]
    · simp
    · split <;> simp

theorem nearestHit_mem {cands : List Hit} {tmin : ℚ} {h : Hit}
    (hm : nearestHit cands tmin = some h) : h ∈ cands ∧ tmin ≤ h.t := by
  have hmem := minByT_mem hm
  have := List.mem_filter.mp hmem
  exact ⟨this.1, of_decide_eq_true this.2⟩

theorem nearestHit_eq_none {cands : List Hit} {tmin : ℚ}
    (hall : ∀ c ∈ cands, c.t < tmin) : nearestHit cands tmin = none := by
  rw [nearestHit, minByT_eq_none]
  rw [List.filter_eq_nil_iff]
  intro c hc
  simpa using not_le.mpr (hall c hc)

theorem nearestHit_congr {cands : List Hit} {t1 t2 : ℚ}
    (h1 : ∀ c ∈ cands, t1 ≤ c.t) (h2 : ∀ c ∈ cands, t2 ≤ c.t) :
    nearestHit cands t1 = nearestHit cands t2 := by
  rw [nearestHit, nearestHit,
    List.filter_eq_self.mpr (fun c hc => decide_eq_true (h1 c hc)),
    List.filter_eq_self.mpr (fun c hc => decide_eq_true (h2 c hc))]

/-! Facts about a single loop-iteration body. -/

theorem FLOAT_EPS_pos : 0 < FLOAT_EPS := by norm_num [FLOAT_EPS]

theorem iterBody_selfhit {s : LoopState} {hit : Hit}
    (hc : hit.id0 = s.last_id0 ∨ hit.t ≤ s.min_t) :
    iterBody s hit =
      { s with num_rays := s.num_rays + 1,
               min_t := s.min_t + 2 ^ s.self_hits * FLOAT_EPS,
               self_hits := s.self_hits + 1,
               last_id0 := hit.id0 } := by
  rw [iterBody, if_pos hc]

theorem iterBody_genuine {s : LoopState} {hit : Hit}
    (hc : ¬(hit.id0 = s.last_id0 ∨ hit.t ≤ s.min_t)) :
    iterBody s hit =
      { s with num_rays := s.num_rays + 1,
               hits := s.hits ++ [hit],
               min_t := hit.t,
               self_hits := 0,
               last_id0 := hit.id0 } := by
  rw [iterBody, if_neg hc]

theorem iterBody_min_t_lt (s : LoopState) (hit : Hit) :
    s.min_t < (iterBody s hit).min_t := by
  rw [iterBody]
  split
  · have h2 : (0 : ℚ) < 2 ^ s.self_hits := by positivity
    have := mul_pos h2 FLOAT_EPS_pos
    simp only
    linarith
  · next hc =>
    push_neg at hc
    simpa using hc.2

theorem iterBody_last_id0_eq (s : LoopState) (hit : Hit) :
    (iterBody s hit).last_id0 = hit.id0 := by
  rw [iterBody]; split <;> rfl

theorem iterBody_num_rays (s : LoopState) (hit : Hit) :
    (iterBody s hit).num_rays = s.num_rays + 1 := by
  rw [iterBody]; split <;> rfl

theorem iterBody_warned (s : LoopState) (hit : Hit) :
    (iterBody s hit).large_hits_warned = s.large_hits_warned := by
  rw [iterBody]; split <;> rfl

theorem iterBody_hits_cases (s : LoopState) (hit : Hit) :
    (iterBody s hit).hits = s.hits ∨ (iterBody s hit).hits = s.hits ++ [hit] := by
  rw [iterBody]; split
  · exact Or.inl rfl
  · exact Or.inr rfl

/-! Invariant carried by the multi-hit loop state. -/

/-- Invariant of the multi-hit loop: recorded hits come from the candidate
set, lie at or below the current lower bound, are pairwise distinct, have
strictly positive `t`, the lower bound is nonnegative, and the warning flag
is still unset. -/
structure InvC (cands : List Hit) (s : LoopState) : Prop where
  mem_cands : ∀ h ∈ s.hits, h ∈ cands
  t_le_min : ∀ h ∈ s.hits, h.t ≤ s.min_t
  nodup : s.hits.Nodup
  min_nonneg : 0 ≤ s.min_t
  t_pos : ∀ h ∈ s.hits, 0 < h.t
  not_warned : s.large_hits_warned = false

theorem invC_init (cands : List Hit) : InvC cands initState := by
  constructor <;> simp [initState]

theorem iterBody_invC {cands : List Hit} {s : LoopState} {hit : Hit}
    (hc : InvC cands s) (hmem : hit ∈ cands) (_hge : s.min_t ≤ hit.t) :
    InvC cands (iterBody s hit) := by
  by_cases hcond : hit.id0 = s.last_id0 ∨ hit.t ≤ s.min_t
  · -- self-hit branch: hits unchanged, min_t grows
    rw [iterBody_selfhit hcond]
    have hpush : 0 < 2 ^ s.self_hits * FLOAT_EPS :=
      mul_pos (by positivity) FLOAT_EPS_pos
    refine ⟨hc.mem_cands, ?_, hc.nodup, ?_, hc.t_pos, hc.not_warned⟩
    · intro h hh
      have := hc.t_le_min h hh
      dsimp only
      linarith
    · have := hc.min_nonneg
      dsimp only
      linarith
  · -- genuine-hit branch: hit recorded, min_t jumps to hit.t
    rw [iterBody_genuine hcond]
    push_neg at hcond
    have hlt : s.min_t < hit.t := hcond.2
    have hnotmem : hit ∉ s.hits := fun hmem' =>
      absurd (hc.t_le_min hit hmem') (not_le.mpr hlt)
    refine ⟨?_, ?_, ?_, ?_, ?_, hc.not_warned⟩ <;> dsimp only
    · intro h hh
      rcases List.mem_append.mp hh with h1 | h1
      · exact hc.mem_cands h h1
      · rw [List.mem_singleton.mp h1]; exact hmem
    · intro h hh
      rcases List.mem_append.mp hh with h1 | h1
      · exact le_of_lt (lt_of_le_of_lt (hc.t_le_min h h1) hlt)
      · rw [List.mem_singleton.mp h1]
    · rw [List.nodup_append]
      refine ⟨hc.nodup, List.nodup_singleton _, ?_⟩
      intro a ha hb
      rw [List.mem_singleton.mp hb] at ha
      exact hnotmem ha
    · exact le_of_lt (lt_of_le_of_lt hc.min_nonneg hlt)
    · intro h hh
      rcases List.mem_append.mp hh with h1 | h1
      · exact hc.t_pos h h1
      · rw [List.mem_singleton.mp h1]
        exact lt_of_le_of_lt hc.min_nonneg hlt

/-! Behaviour of every completed traversal. -/

/-- Master property of a completed run of the multi-hit loop, from which the
per-claim theorems about completed traversals are extracted. -/
theorem loop_master {cands : List Hit} {fuel : Nat} {s : LoopState}
    {res : MultiHitResult}
    (hinv : InvC cands s) (hlen : s.hits.length ≤ 1000)
    (hrun : loop cands fuel s = some res) :
    res.ret = res.hits.isEmpty ∧
    res.hits.length ≤ 1001 ∧
    (res.warned = true ↔ 1000 < res.hits.length) ∧
    (∀ h ∈ res.hits, 0 < h.t) ∧
    (∀ h ∈ res.hits, h ∈ cands) := by
  induction fuel generalizing s with
  | zero => simp [loop] at hrun
  | succ n ih =>
    rw [loop] at hrun
    cases hnear : nearestHit cands s.min_t with
    | none =>
      simp only [step, hnear, Option.some.injEq] at hrun
      subst hrun
      refine ⟨rfl, ?_, ?_, hinv.t_pos, hinv.mem_cands⟩
      · show s.hits.length ≤ 1001
        omega
      · show s.large_hits_warned = true ↔ 1000 < s.hits.length
        rw [hinv.not_warned]
        simp only [Bool.false_eq_true, false_iff]
        omega
    | some hit =>
      obtain ⟨hmem, hge⟩ := nearestHit_mem hnear
      have hinv' : InvC cands (iterBody s hit) := iterBody_invC hinv hmem hge
      have hlen' : (iterBody s hit).hits.length ≤ s.hits.length + 1 := by
        rcases iterBody_hits_cases s hit with h | h <;> simp [h]
      by_cases hguard : 1000 < (iterBody s hit).hits.length ∧
          (iterBody s hit).large_hits_warned = false
      · -- overflow guard fires: early return with warned = true
        simp only [step, hnear, if_pos hguard, Option.some.injEq] at hrun
        subst hrun
        refine ⟨rfl, ?_, ?_, hinv'.t_pos, hinv'.mem_cands⟩
        · show (iterBody s hit).hits.length ≤ 1001
          omega
        · show true = true ↔ 1000 < (iterBody s hit).hits.length
          simp only [true_iff]
          exact hguard.1
      · -- loop continues
        simp only [step, hnear, if_neg hguard] at hrun
        have hlen'' : (iterBody s hit).hits.length ≤ 1000 := by
          by_contra hgt
          exact hguard ⟨by omega, hinv'.not_warned⟩
        exact ih hinv' hlen'' hrun

/-- Hits already recorded are never removed: a completed run's hit list
extends the hit list of the state it started from. -/
theorem loop_hits_extend {cands : List Hit} {fuel : Nat} {s : LoopState}
    {res : MultiHitResult} (hrun : loop cands fuel s = some res) :
    ∃ tail, res.hits = s.hits ++ tail := by
  induction fuel generalizing s with
  | zero => simp [loop] at hrun
  | succ n ih =>
    rw [loop] at hrun
    cases hnear : nearestHit cands s.min_t with
    | none =>
      simp only [step, hnear, Option.some.injEq] at hrun
      subst hrun
      exact ⟨[], by simp⟩
    | some hit =>
      by_cases hguard : 1000 < (iterBody s hit).hits.length ∧
          (iterBody s hit).large_hits_warned = false
      · simp only [step, hnear, if_pos hguard, Option.some.injEq] at hrun
        subst hrun
        rcases iterBody_hits_cases s hit with h | h
        · exact ⟨[], by simp [h]⟩
        · exact ⟨[hit], h⟩
      · simp only [step, hnear, if_neg hguard] at hrun
        obtain ⟨tail, htail⟩ := ih hrun
        rcases iterBody_hits_cases s hit with h | h
        · exact ⟨tail, by rw [htail, h]⟩
        · exact ⟨hit :: tail, by rw [htail, h, List.append_assoc]; rfl⟩

/-! Termination of the multi-hit loop.  The measure combines the number of
candidates not yet recorded with the number of epsilon-sized pushes still
available below an upper bound of all candidate distances: a genuine hit
grows the (duplicate-free) recorded list, and a self-hit advances `min_t`
by at least `FLOAT_EPS`. -/

/-- Upper bound of all candidate hit distances (and of `0`). -/
def Ubound (cands : List Hit) : ℚ := (cands.map Hit.t).foldr max 0

theorem t_le_Ubound {cands : List Hit} {c : Hit} (hc : c ∈ cands) :
    c.t ≤ Ubound cands := by
  induction cands with
  | nil => cases hc
  | cons a rest ih =>
    rcases List.mem_cons.mp hc with h | h
    · rw [h, Ubound, List.map_cons, List.foldr_cons]
      exact le_max_left _ _
    · calc c.t ≤ Ubound rest := ih h
        _ ≤ max a.t (Ubound rest) := le_max_right _ _
        _ = Ubound (a :: rest) := rfl

/-- Number of epsilon-sized forward pushes available before the lower bound
passes every candidate. -/
def pushesLeft (cands : List Hit) (s : LoopState) : ℕ :=
  (Int.ceil ((Ubound cands + FLOAT_EPS - s.min_t) / FLOAT_EPS)).toNat

theorem ceil_pushes_pos {cands : List Hit} {s : LoopState} {hit : Hit}
    (hnear : nearestHit cands s.min_t = some hit) :
    (1 : ℤ) ≤ Int.ceil ((Ubound cands + FLOAT_EPS - s.min_t) / FLOAT_EPS) := by
  obtain ⟨hmem, hge⟩ := nearestHit_mem hnear
  have hU : s.min_t ≤ Ubound cands := le_trans hge (t_le_Ubound hmem)
  have hx : (1 : ℚ) ≤ (Ubound cands + FLOAT_EPS - s.min_t) / FLOAT_EPS := by
    rw [le_div_iff₀ FLOAT_EPS_pos]
    linarith
  have := Int.le_ceil ((Ubound cands + FLOAT_EPS - s.min_t) / FLOAT_EPS)
  exact_mod_cast le_trans hx this

theorem pushesLeft_pos {cands : List Hit} {s : LoopState} {hit : Hit}
    (hnear : nearestHit cands s.min_t = some hit) : 1 ≤ pushesLeft cands s := by
  have := ceil_pushes_pos hnear
  rw [pushesLeft]
  omega

theorem pushesLeft_mono {cands : List Hit} {s s2 : LoopState}
    (h : s.min_t ≤ s2.min_t) : pushesLeft cands s2 ≤ pushesLeft cands s := by
  have hdiv : (Ubound cands + FLOAT_EPS - s2.min_t) / FLOAT_EPS ≤
      (Ubound cands + FLOAT_EPS - s.min_t) / FLOAT_EPS :=
    div_le_div_of_nonneg_right (by linarith) FLOAT_EPS_pos.le
  have := Int.ceil_le_ceil hdiv
  rw [pushesLeft, pushesLeft]
  omega

theorem pushesLeft_selfhit {cands : List Hit} {s : LoopState} {hit : Hit}
    (hnear : nearestHit cands s.min_t = some hit)
    (hcond : hit.id0 = s.last_id0 ∨ hit.t ≤ s.min_t) :
    pushesLeft cands (iterBody s hit) < pushesLeft cands s := by
  have hone : (1 : ℚ) ≤ 2 ^ s.self_hits := one_le_pow₀ (by norm_num)
  have hpush : FLOAT_EPS ≤ 2 ^ s.self_hits * FLOAT_EPS := by
    nlinarith [FLOAT_EPS_pos]
  have hmin : s.min_t + FLOAT_EPS ≤ (iterBody s hit).min_t := by
    rw [iterBody_selfhit hcond]
    dsimp only
    linarith
  have hdiv : (Ubound cands + FLOAT_EPS - (iterBody s hit).min_t) / FLOAT_EPS ≤
      (Ubound cands + FLOAT_EPS - s.min_t) / FLOAT_EPS - 1 := by
    rw [div_sub_one (ne_of_gt FLOAT_EPS_pos)]
    exact div_le_div_of_nonneg_right (by linarith) FLOAT_EPS_pos.le
  have hceil : Int.ceil ((Ubound cands + FLOAT_EPS - (iterBody s hit).min_t) / FLOAT_EPS) ≤
      Int.ceil ((Ubound cands + FLOAT_EPS - s.min_t) / FLOAT_EPS) - 1 := by
    have h1 := Int.ceil_le_ceil hdiv
    rwa [show ((Ubound cands + FLOAT_EPS - s.min_t) / FLOAT_EPS - 1 : ℚ) =
        (Ubound cands + FLOAT_EPS - s.min_t) / FLOAT_EPS - ((1 : ℤ) : ℚ) by push_cast; ring,
      Int.ceil_sub_int] at h1
  have hp := ceil_pushes_pos hnear
  rw [pushesLeft, pushesLeft]
  omega

theorem step_next_inv {cands : List Hit} {s s' : LoopState}
    (h : step cands s = .next s') :
    ∃ hit, nearestHit cands s.min_t = some hit ∧ s' = iterBody s hit := by
  cases hnear : nearestHit cands s.min_t with
  | none => simp [step, hnear] at h
  | some hit =>
    refine ⟨hit, rfl, ?_⟩
    by_cases hguard : 1000 < (iterBody s hit).hits.length ∧
        (iterBody s hit).large_hits_warned = false
    · simp [step, hnear, if_pos hguard] at h
    · simp only [step, hnear, if_neg hguard, StepResult.next.injEq] at h
      exact h.symm

/-- Strong-induction core of the termination proof: the measure
`(#candidates - #recorded) * (C + 1) + pushesLeft` strictly decreases at
every continuing iteration. -/
theorem loop_total_aux (cands : List Hit) (C : ℕ) :
    ∀ n : ℕ, ∀ s : LoopState, InvC cands s → pushesLeft cands s ≤ C →
      (cands.length - s.hits.length) * (C + 1) + pushesLeft cands s ≤ n →
      ∃ fuel res, loop cands fuel s = some res := by
  intro n
  induction n with
  | zero =>
    intro s hinv hBC hmeas
    cases hstep : step cands s with
    | done r => exact ⟨1, r, by simp [loop, hstep]⟩
    | next s' =>
      exfalso
      obtain ⟨hit, hnear, _⟩ := step_next_inv hstep
      have := pushesLeft_pos hnear
      omega
  | succ n ih =>
    intro s hinv hBC hmeas
    cases hstep : step cands s with
    | done r => exact ⟨1, r, by simp [loop, hstep]⟩
    | next s' =>
      obtain ⟨hit, hnear, hs'⟩ := step_next_inv hstep
      obtain ⟨hmem, hge⟩ := nearestHit_mem hnear
      have hinv' : InvC cands s' := hs' ▸ iterBody_invC hinv hmem hge
      subst hs'
      by_cases hcond : hit.id0 = s.last_id0 ∨ hit.t ≤ s.min_t
      · -- self-hit: hit list unchanged, pushes strictly decrease
        have hhits : (iterBody s hit).hits = s.hits := by
          rw [iterBody_selfhit hcond]
        have hB := pushesLeft_selfhit hnear hcond
        have hmeas' : (cands.length - (iterBody s hit).hits.length) * (C + 1) +
            pushesLeft cands (iterBody s hit) ≤ n := by
          rw [hhits]
          have h1 : (cands.length - s.hits.length) * (C + 1) +
              pushesLeft cands (iterBody s hit) + 1 ≤
              (cands.length - s.hits.length) * (C + 1) + pushesLeft cands s := by
            rw [Nat.add_assoc]
            exact Nat.add_le_add_left (by omega) _
          omega
        obtain ⟨fuel, res, hres⟩ := ih (iterBody s hit) hinv' (by omega) hmeas'
        refine ⟨fuel + 1, res, ?_⟩
        rw [loop, hstep]
        exact hres
      · -- genuine hit: the duplicate-free hit list grows
        have hhits : (iterBody s hit).hits = s.hits ++ [hit] := by
          rw [iterBody_genuine hcond]
        have hlen1 : (iterBody s hit).hits.length = s.hits.length + 1 := by
          rw [hhits]; simp
        have hle : (iterBody s hit).hits.length ≤ cands.length :=
          ((hinv'.nodup.subperm hinv'.mem_cands).length_le)
        have hB : pushesLeft cands (iterBody s hit) ≤ pushesLeft cands s :=
          pushesLeft_mono (le_of_lt (iterBody_min_t_lt s hit))
        have hA : cands.length - s.hits.length =
            (cands.length - (iterBody s hit).hits.length) + 1 := by omega
        have hkey : (cands.length - (iterBody s hit).hits.length) * (C + 1) +
            pushesLeft cands (iterBody s hit) + 1 ≤
            (cands.length - s.hits.length) * (C + 1) := by
          rw [hA, Nat.add_mul, Nat.one_mul, Nat.add_assoc]
          exact Nat.add_le_add_left (by omega) _
        have hmeas' : (cands.length - (iterBody s hit).hits.length) * (C + 1) +
            pushesLeft cands (iterBody s hit) ≤ n := by
          have h2 : (cands.length - s.hits.length) * (C + 1) ≤
              (cands.length - s.hits.length) * (C + 1) + pushesLeft cands s :=
            Nat.le_add_right _ _
          omega
        obtain ⟨fuel, res, hres⟩ := ih (iterBody s hit) hinv' (by omega) hmeas'
        refine ⟨fuel + 1, res, ?_⟩
        rw [loop, hstep]
        exact hres

/-- For every candidate set there is a fuel budget under which the
multi-hit loop finishes. -/
theorem loop_terminates (cands : List Hit) :
    ∃ fuel res, loop cands fuel initState = some res :=
  loop_total_aux cands (pushesLeft cands initState)
    ((cands.length - initState.hits.length) * (pushesLeft cands initState + 1) +
      pushesLeft cands initState)
    initState (invC_init cands) le_rfl le_rfl

/-! Ordering of the recorded hits.  The geometric side condition `hids`
states that a triangle id determines at most one candidate hit along the
fixed query ray (a ray meets a triangle in at most one point). -/

theorem iterBody_pairwise {cands : List Hit} {s : LoopState} {hit : Hit}
    (hids : ∀ a ∈ cands, ∀ b ∈ cands, a.id0 = b.id0 → a = b)
    (hinv : InvC cands s) (hmem : hit ∈ cands)
    (hpw : s.hits.Pairwise (fun a b => a.t < b.t ∧ a.id0 ≠ b.id0)) :
    (iterBody s hit).hits.Pairwise (fun a b => a.t < b.t ∧ a.id0 ≠ b.id0) := by
  by_cases hcond : hit.id0 = s.last_id0 ∨ hit.t ≤ s.min_t
  · rw [iterBody_selfhit hcond]
    exact hpw
  · rw [iterBody_genuine hcond]
    push_neg at hcond
    have hlt : s.min_t < hit.t := hcond.2
    rw [List.pairwise_append]
    refine ⟨hpw, List.pairwise_singleton _ _, ?_⟩
    intro x hx y hy
    rw [List.mem_singleton.mp hy]
    have hxt : x.t < hit.t := lt_of_le_of_lt (hinv.t_le_min x hx) hlt
    refine ⟨hxt, fun heq => ?_⟩
    have := hids x (hinv.mem_cands x hx) hit hmem heq
    rw [this] at hxt
    exact lt_irrefl _ hxt

theorem loop_sorted {cands : List Hit} {fuel : Nat} {s : LoopState}
    {res : MultiHitResult}
    (hids : ∀ a ∈ cands, ∀ b ∈ cands, a.id0 = b.id0 → a = b)
    (hinv : InvC cands s)
    (hpw : s.hits.Pairwise (fun a b => a.t < b.t ∧ a.id0 ≠ b.id0))
    (hrun : loop cands fuel s = some res) :
    res.hits.Pairwise (fun a b => a.t < b.t ∧ a.id0 ≠ b.id0) := by
  induction fuel generalizing s with
  | zero => simp [loop] at hrun
  | succ n ih =>
    rw [loop] at hrun
    cases hnear : nearestHit cands s.min_t with
    | none =>
      simp only [step, hnear, Option.some.injEq] at hrun
      subst hrun
      exact hpw
    | some hit =>
      obtain ⟨hmem, hge⟩ := nearestHit_mem hnear
      have hpw' := iterBody_pairwise hids hinv hmem hpw
      have hinv' := iterBody_invC hinv hmem hge
      by_cases hguard : 1000 < (iterBody s hit).hits.length ∧
          (iterBody s hit).large_hits_warned = false
      · simp only [step, hnear, if_pos hguard, Option.some.injEq] at hrun
        subst hrun
        exact hpw'
      · simp only [step, hnear, if_neg hguard] at hrun
        exact ih hinv' hpw' hrun

/-! Claim theorems. -/

/-- C1: in every multi-hit loop iteration whose nearest-hit query returns a
hit whose triangle id equals the last-seen id, or whose `t` is not strictly
greater than the current lower bound, the hit is not appended to the
results; the lower bound instead grows by `2 ^ self_hits * FLOAT_EPS` and
the consecutive-self-hit counter increments by one. -/
theorem intersectRay_selfHit_discarded {cands : List Hit} {s : LoopState}
    {hit : Hit} (_hnear : nearestHit cands s.min_t = some hit)
    (hcond : hit.id0 = s.last_id0 ∨ hit.t ≤ s.min_t) :
    (iterBody s hit).hits = s.hits ∧
    (iterBody s hit).min_t = s.min_t + 2 ^ s.self_hits * FLOAT_EPS ∧
    (iterBody s hit).self_hits = s.self_hits + 1 := by
  rw [iterBody_selfhit hcond]
  exact ⟨rfl, rfl, rfl⟩

theorem intersectRay_selfHit_discarded_witness :
    nearestHit [⟨0, 0⟩] initState.min_t = some ⟨0, 0⟩ ∧
    ((iterBody initState ⟨0, 0⟩).hits = initState.hits ∧
     (iterBody initState ⟨0, 0⟩).min_t =
       initState.min_t + 2 ^ initState.self_hits * FLOAT_EPS ∧
     (iterBody initState ⟨0, 0⟩).self_hits = initState.self_hits + 1) :=
  ⟨by norm_num [nearestHit, minByT, initState],
   @intersectRay_selfHit_discarded [⟨0, 0⟩] initState ⟨0, 0⟩
     (by norm_num [nearestHit, minByT, initState])
     (Or.inr (by norm_num [initState]))⟩

/-- C2: the boolean returned by a completed multi-hit `intersectRay` is
true exactly when the returned hit list is empty; in particular it is false
on the early return taken when the overflow guard fires, contradicting the
declaration comment "Returns true if and only if there was a hit". -/
theorem intersectRay_ret_iff_no_hits {cands : List Hit} {fuel : Nat}
    {res : MultiHitResult} (hrun : intersectRayAll cands fuel = some res) :
    (res.ret = true ↔ res.hits = []) ∧ (res.warned = true → res.ret = false) := by
  rw [intersectRayAll] at hrun
  obtain ⟨h1, _, h3, _, _⟩ :=
    loop_master (invC_init cands) (by simp [initState]) hrun
  constructor
  · rw [h1]
    exact List.isEmpty_iff
  · intro hw
    have hlen := h3.mp hw
    have hne : res.hits ≠ [] := by
      intro h
      rw [h] at hlen
      exact absurd hlen (by norm_num)
    rw [h1, Bool.eq_false_iff]
    intro h
    exact hne (List.isEmpty_iff.mp h)

theorem intersectRay_ret_iff_no_hits_witness :
    ((MultiHitResult.mk true [] 1 false).ret = true ↔
      (MultiHitResult.mk true [] 1 false).hits = []) ∧
    ((MultiHitResult.mk true [] 1 false).warned = true →
      (MultiHitResult.mk true [] 1 false).ret = false) :=
  @intersectRay_ret_iff_no_hits [] 1 (MultiHitResult.mk true [] 1 false)
    (by norm_num [intersectRayAll, loop, step, nearestHit, minByT, initState])

/-- C5: the lower bound strictly increases in every iteration that found a
hit — in the self-hit branch by the strictly positive escape
`2 ^ self_hits * FLOAT_EPS`, in the genuine branch by jumping to the hit's
`t`, which is strictly greater than the previous bound — and consequently
the multi-hit traversal terminates on every finite candidate set. -/
theorem multiHit_progress_and_terminates (cands : List Hit) :
    (∀ s : LoopState, ∀ hit : Hit,
      s.min_t < (iterBody s hit).min_t ∧
      (iterBody s hit).min_t =
        (if hit.id0 = s.last_id0 ∨ hit.t ≤ s.min_t
         then s.min_t + 2 ^ s.self_hits * FLOAT_EPS else hit.t)) ∧
    ∃ fuel res, intersectRayAll cands fuel = some res := by
  constructor
  · intro s hit
    refine ⟨iterBody_min_t_lt s hit, ?_⟩
    by_cases hcond : hit.id0 = s.last_id0 ∨ hit.t ≤ s.min_t
    · rw [if_pos hcond, iterBody_selfhit hcond]
    · rw [if_neg hcond, iterBody_genuine hcond]
  · obtain ⟨fuel, res, h⟩ := loop_terminates cands
    exact ⟨fuel, res, h⟩

/-- C9: the condition `hit.t < 1` asserted in the self-hit branch
(line 197) fails on a reachable iteration: with a single candidate at
parametric distance `5`, the second query returns that triangle again, the
self-hit condition holds, and its `t` is not below `1`. -/
theorem selfHit_assert_violated :
    step [⟨0, 5⟩] initState =
      StepResult.next (LoopState.mk [⟨0, 5⟩] 1 0 0 5 false) ∧
    nearestHit [⟨0, 5⟩] (LoopState.mk [⟨0, 5⟩] 1 0 0 5 false).min_t =
      some ⟨0, 5⟩ ∧
    ((Hit.mk 0 5).id0 = (LoopState.mk [⟨0, 5⟩] 1 0 0 5 false).last_id0 ∨
      (Hit.mk 0 5).t ≤ (LoopState.mk [⟨0, 5⟩] 1 0 0 5 false).min_t) ∧
    ¬ (Hit.mk 0 5).t < 1 := by
  refine ⟨?_, ?_, Or.inl rfl, by norm_num⟩
  · norm_num [step, nearestHit, minByT, iterBody, initState]
  · norm_num [nearestHit, minByT]

/-- C10: after every loop iteration in which the nearest-hit query returned
a hit — the discarded self-hit branch included — the last-seen triangle id
is updated to that hit's id, so a triangle first met as a discarded
self-hit is the reference id for the next iteration's self-hit test. -/
theorem last_id0_updated_every_hit (s : LoopState) (hit : Hit) :
    (iterBody s hit).last_id0 = hit.id0 :=
  iterBody_last_id0_eq s hit

/-- C3 counterexample: the single-hit form queries from the fixed lower
bound `1e-4` while the multi-hit form starts from `0`, so for a mesh whose
only hit lies at `t = 1e-5` the single-hit query reports no hit although
the completed multi-hit traversal returns a non-empty hit list. -/
theorem intersectRay_single_multi_disagree :
    intersectRay [⟨0, 1 / 100000⟩] = none ∧
    intersectRayAll [⟨0, 1 / 100000⟩] 3 =
      some ⟨false, [⟨0, 1 / 100000⟩], 3, false⟩ := by
  constructor
  · norm_num [intersectRay, nearestHit, minByT]
  · norm_num [intersectRayAll, loop, step, nearestHit, minByT, iterBody,
      initState, FLOAT_EPS]

/-- C3 amended: for candidate sets whose triangle ids are nonnegative (as
the constructor builds them) and whose hits all lie at distance at least
`1e-4` (the single-hit form's fixed lower bound), the single-hit
`intersectRay` returns a hit exactly when a completed multi-hit traversal
returns a non-empty list, and it equals that list's first element. -/
theorem intersectRay_single_multi_agree {cands : List Hit} {fuel : Nat}
    {res : MultiHitResult}
    (hid : ∀ c ∈ cands, 0 ≤ c.id0)
    (hfar : ∀ c ∈ cands, 1 / 10 ^ 4 ≤ c.t)
    (hrun : intersectRayAll cands fuel = some res) :
    res.hits.head? = intersectRay cands ∧
    ((intersectRay cands).isSome ↔ res.hits ≠ []) := by
  have h0 : ∀ c ∈ cands, (0 : ℚ) ≤ c.t :=
    fun c hc => le_trans (by norm_num) (hfar c hc)
  have heq : nearestHit cands 0 = nearestHit cands (1 / 10 ^ 4) :=
    nearestHit_congr h0 hfar
  rw [intersectRayAll] at hrun
  cases fuel with
  | zero => simp [loop] at hrun
  | succ n =>
    rw [loop] at hrun
    cases hnear : nearestHit cands initState.min_t with
    | none =>
      simp only [step, hnear, Option.some.injEq] at hrun
      subst hrun
      have hsingle : intersectRay cands = none := by
        rw [intersectRay, ← heq]
        exact hnear
      rw [hsingle]
      refine ⟨rfl, ?_⟩
      simp [initState]
    | some h0hit =>
      have hm := nearestHit_mem hnear
      have hfar0 := hfar _ hm.1
      have hid0 := hid _ hm.1
      have hcond : ¬(h0hit.id0 = initState.last_id0 ∨
          h0hit.t ≤ initState.min_t) := by
        rw [show initState.last_id0 = -1 from rfl,
          show initState.min_t = 0 from rfl]
        push_neg
        have hq : (0 : ℚ) < 1 / 10 ^ 4 := by norm_num
        constructor
        · intro h
          rw [h] at hid0
          norm_num at hid0
        · linarith
      have hs1hits : (iterBody initState h0hit).hits = [h0hit] := by
        rw [iterBody_genuine hcond]
        rfl
      have hguard : ¬(1000 < (iterBody initState h0hit).hits.length ∧
          (iterBody initState h0hit).large_hits_warned = false) := by
        intro hg
        rw [hs1hits] at hg
        exact absurd hg.1 (by norm_num)
      simp only [step, hnear, if_neg hguard] at hrun
      obtain ⟨tail, htail⟩ := loop_hits_extend hrun
      rw [hs1hits] at htail
      have hsingle : intersectRay cands = some h0hit := by
        rw [intersectRay, ← heq]
        exact hnear
      rw [hsingle, htail]
      refine ⟨rfl, ?_⟩
      simp

theorem intersectRay_single_multi_agree_witness :
    (MultiHitResult.mk false [⟨0, 1⟩] 3 false).hits.head? =
      intersectRay [⟨0, 1⟩] ∧
    ((intersectRay [⟨0, 1⟩]).isSome ↔
      (MultiHitResult.mk false [⟨0, 1⟩] 3 false).hits ≠ []) :=
  @intersectRay_single_multi_agree [⟨0, 1⟩] 3
    (MultiHitResult.mk false [⟨0, 1⟩] 3 false)
    (by
      intro c hc
      norm_num [List.mem_singleton.mp hc])
    (by
      intro c hc
      norm_num [List.mem_singleton.mp hc])
    (by norm_num [intersectRayAll, loop, step, nearestHit, minByT, iterBody,
      initState, FLOAT_EPS])

/-- C4 counterexample: the multi-hit traversal initializes its parametric
lower bound to exactly `0` (`double min_t = embree::zero`, line 177), not
to a small positive epsilon. -/
theorem multiHit_initial_lower_bound_zero :
    initState.min_t = 0 ∧ ¬ 0 < initState.min_t :=
  ⟨rfl, by norm_num [initState]⟩

/-- C4 amended: the multi-hit lower bound starts at exactly `0`;
nevertheless a hit at `t = 0` (origin exactly on a triangle) is never
recorded, since the self-hit rule discards hits with `t` not strictly above
the bound — every recorded hit of a completed traversal has `t > 0` — and a
genuine hit further along the ray is still reported, as in the concrete
origin-on-triangle run appended as last conjunct. -/
theorem multiHit_no_hit_at_zero {cands : List Hit} {fuel : Nat}
    {res : MultiHitResult} (hrun : intersectRayAll cands fuel = some res) :
    initState.min_t = 0 ∧ (∀ h ∈ res.hits, 0 < h.t) ∧
    intersectRayAll [⟨0, 0⟩, ⟨1, 1⟩] 4 = some ⟨false, [⟨1, 1⟩], 4, false⟩ := by
  rw [intersectRayAll] at hrun
  obtain ⟨_, _, _, hpos, _⟩ :=
    loop_master (invC_init cands) (by simp [initState]) hrun
  refine ⟨rfl, hpos, ?_⟩
  norm_num [intersectRayAll, loop, step, nearestHit, minByT, iterBody,
    initState, FLOAT_EPS]

theorem multiHit_no_hit_at_zero_witness :
    initState.min_t = 0 ∧
    (∀ h ∈ (MultiHitResult.mk false [⟨1, 1⟩] 4 false).hits, 0 < h.t) ∧
    intersectRayAll [⟨0, 0⟩, ⟨1, 1⟩] 4 = some ⟨false, [⟨1, 1⟩], 4, false⟩ :=
  @multiHit_no_hit_at_zero [⟨0, 0⟩, ⟨1, 1⟩] 4
    (MultiHitResult.mk false [⟨1, 1⟩] 4 false)
    (by norm_num [intersectRayAll, loop, step, nearestHit, minByT, iterBody,
      initState, FLOAT_EPS])

/-- C6: for a completed multi-hit traversal — over candidates where a
triangle id determines at most one hit along the ray, as for triangles —
the returned hit list is strictly increasing in `t` and no triangle id
occupies two consecutive positions. -/
theorem multiHit_hits_sorted_distinct {cands : List Hit} {fuel : Nat}
    {res : MultiHitResult}
    (hids : ∀ a ∈ cands, ∀ b ∈ cands, a.id0 = b.id0 → a = b)
    (hrun : intersectRayAll cands fuel = some res) :
    res.hits.Pairwise (fun a b => a.t < b.t) ∧
    res.hits.Chain' (fun a b => a.id0 ≠ b.id0) := by
  rw [intersectRayAll] at hrun
  have h := loop_sorted hids (invC_init cands) (by simp [initState]) hrun
  exact ⟨h.imp (fun hab => hab.1), (h.imp (fun hab => hab.2)).chain'⟩

theorem multiHit_hits_sorted_distinct_witness :
    (MultiHitResult.mk false [⟨0, 1⟩] 3 false).hits.Pairwise
      (fun a b => a.t < b.t) ∧
    (MultiHitResult.mk false [⟨0, 1⟩] 3 false).hits.Chain'
      (fun a b => a.id0 ≠ b.id0) :=
  @multiHit_hits_sorted_distinct [⟨0, 1⟩] 3
    (MultiHitResult.mk false [⟨0, 1⟩] 3 false)
    (by
      intro a ha b hb _
      rw [List.mem_singleton.mp ha, List.mem_singleton.mp hb])
    (by norm_num [intersectRayAll, loop, step, nearestHit, minByT, iterBody,
      initState, FLOAT_EPS])

/-- C7: a completed multi-hit traversal never returns more than 1001 hits,
and the diagnostic warning is emitted exactly when the hit count exceeded
1000 — the call then still returns the hits collected so far as an ordinary
result (the early return of line 247) instead of failing. -/
theorem multiHit_overflow_guard {cands : List Hit} {fuel : Nat}
    {res : MultiHitResult} (hrun : intersectRayAll cands fuel = some res) :
    res.hits.length ≤ 1001 ∧ (res.warned = true ↔ 1000 < res.hits.length) := by
  rw [intersectRayAll] at hrun
  obtain ⟨_, h2, h3, _, _⟩ :=
    loop_master (invC_init cands) (by simp [initState]) hrun
  exact ⟨h2, h3⟩

theorem multiHit_overflow_guard_witness :
    (MultiHitResult.mk true [] 1 false).hits.length ≤ 1001 ∧
    ((MultiHitResult.mk true [] 1 false).warned = true ↔
      1000 < (MultiHitResult.mk true [] 1 false).hits.length) :=
  @multiHit_overflow_guard [] 1 (MultiHitResult.mk true [] 1 false)
    (by norm_num [intersectRayAll, loop, step, nearestHit, minByT, initState])

/-- C8: for every ray that strikes no candidate (every candidate lies at
negative parametric distance, so the very first nearest-hit query reports
no hit), the multi-hit `intersectRay` returns the empty hit list, the
boolean `true`, and a ray count of exactly `1`. -/
theorem multiHit_miss_empty_one_ray {cands : List Hit} (fuel : Nat)
    (hmiss : ∀ c ∈ cands, c.t < 0) :
    intersectRayAll cands (fuel + 1) = some ⟨true, [], 1, false⟩ := by
  have hnear : nearestHit cands initState.min_t = none :=
    nearestHit_eq_none hmiss
  rw [intersectRayAll, loop]
  simp only [step, hnear]
  rfl

theorem multiHit_miss_empty_one_ray_witness :
    intersectRayAll [⟨0, -1⟩] 1 = some ⟨true, [], 1, false⟩ :=
  @multiHit_miss_empty_one_ray [⟨0, -1⟩] 0
    (by
      intro c hc
      norm_num [List.mem_singleton.mp hc])

end EmbreeIntersector
